import Mathlib

/-!
Verification of the request-admission-and-caching core of the
We-Have-Food-At-Home repository.

The development shallowly embeds the TypeScript source:

* `src/app/api/search/route.ts` — `normalizeQuery`, `cleanJsonResponse`,
  `cleanExpiredCache` and the `POST` orchestrator (modelled as
  `searchPOST1`);
* `src/app/api/image-generation/route.ts` (second document in that file) —
  `normalizeQuery` (whitespace-collapsing variant), `validateApiResponse`,
  `staleWhileRevalidate` and its `POST` orchestrator (`searchPOST2`);
* `src/lib/rate-limiter.ts` — `rateLimit`;
* `src/context/ui-context.tsx` — `parseRecipeData` (first variant,
  lines 99–158) together with a model of `JSON.parse`.

Strings are modelled as `List Char`; timestamps as `Int` (JS numbers used
as millisecond clocks); fallible code returns `Option`/`Except`.
Character classes are defined through code points (`Char.toNat`), which is
exactly how the JS string primitives treat them.
-/

/-! ## Character utilities -/

/-- Whitespace recognised by JS `String.prototype.trim` / regex `\s`
(the ASCII whitespace characters: space, tab, LF, VT, FF, CR). -/
def isWs (c : Char) : Bool :=
  decide (c.toNat = 32 ∨ c.toNat = 9 ∨ c.toNat = 10 ∨ c.toNat = 11 ∨
    c.toNat = 12 ∨ c.toNat = 13)

/-- Characters matched by the JS regex `.` (anything but a line
terminator: LF, CR, LINE SEPARATOR, PARAGRAPH SEPARATOR). -/
def jsDot (c : Char) : Bool :=
  !(decide (c.toNat = 10 ∨ c.toNat = 13 ∨ c.toNat = 8232 ∨ c.toNat = 8233))

/-- ASCII lower-casing: the behaviour of `String.prototype.toLowerCase`
on the characters this code manipulates (`A`–`Z` map to `a`–`z`). -/
def lowerChar (c : Char) : Char :=
  if 65 ≤ c.toNat ∧ c.toNat ≤ 90 then Char.ofNat (c.toNat + 32) else c

/-- Lower-case a string (list of characters): `toLowerCase`. -/
def lowerStr (s : List Char) : List Char := s.map lowerChar

/-- Drop leading whitespace. -/
def trimLeft (s : List Char) : List Char := s.dropWhile isWs

/-- Drop trailing whitespace. -/
def trimRight (s : List Char) : List Char := (trimLeft s.reverse).reverse

/-- JS `String.prototype.trim`. -/
def trimStr (s : List Char) : List Char := trimRight (trimLeft s)

theorem toNat_ofNat_of_lt (n : Nat) (h : n < 55296) :
    (Char.ofNat n).toNat = n := by
  have hv : n.isValidChar := Or.inl h
  simp [Char.ofNat, Char.ofNatAux, Char.toNat, hv]
  rfl

theorem char_toNat_inj {a b : Char} (h : a.toNat = b.toNat) : a = b := by
  have h' : a.val.toNat = b.val.toNat := h
  have hv : a.val = b.val := by
    cases av : a.val
    cases bv : b.val
    simp_all [UInt32.toNat]
    exact congrArg UInt32.mk (BitVec.toNat_injective h')
  exact Char.eq_of_val_eq hv

theorem lowerChar_toNat (c : Char) :
    (lowerChar c).toNat =
      if 65 ≤ c.toNat ∧ c.toNat ≤ 90 then c.toNat + 32 else c.toNat := by
  unfold lowerChar
  split
  · next h => rw [toNat_ofNat_of_lt] <;> omega
  · rfl

theorem lowerChar_idem (c : Char) : lowerChar (lowerChar c) = lowerChar c := by
  apply char_toNat_inj
  have h1 := lowerChar_toNat c
  have h2 := lowerChar_toNat (lowerChar c)
  by_cases h : 65 ≤ c.toNat ∧ c.toNat ≤ 90
  · rw [if_pos h] at h1
    rw [h1] at h2
    rw [if_neg (by omega)] at h2
    omega
  · rw [if_neg h] at h1
    rw [h1] at h2
    rw [if_neg h] at h2
    omega

theorem isWs_lowerChar (c : Char) : isWs (lowerChar c) = isWs c := by
  unfold isWs
  rw [lowerChar_toNat]
  exact decide_eq_decide.mpr (by split <;> omega)

theorem jsDot_lowerChar (c : Char) : jsDot (lowerChar c) = jsDot c := by
  unfold jsDot
  congr 1
  rw [lowerChar_toNat]
  exact decide_eq_decide.mpr (by split <;> omega)

theorem lowerStr_idem (s : List Char) : lowerStr (lowerStr s) = lowerStr s := by
  unfold lowerStr
  rw [List.map_map]
  exact List.map_congr_left fun c _ => lowerChar_idem c

theorem trimLeft_lowerStr (s : List Char) :
    trimLeft (lowerStr s) = lowerStr (trimLeft s) := by
  induction s with
  | nil => rfl
  | cons c cs ih =>
    unfold trimLeft lowerStr at *
    simp only [List.map_cons, List.dropWhile_cons, isWs_lowerChar]
    split <;> simp_all

theorem lowerStr_reverse (s : List Char) :
    lowerStr s.reverse = (lowerStr s).reverse := by
  unfold lowerStr
  exact List.map_reverse _ _

theorem trimRight_lowerStr (s : List Char) :
    trimRight (lowerStr s) = lowerStr (trimRight s) := by
  calc trimRight (lowerStr s)
      = (trimLeft (lowerStr s).reverse).reverse := rfl
    _ = (trimLeft (lowerStr s.reverse)).reverse := by rw [lowerStr_reverse]
    _ = (lowerStr (trimLeft s.reverse)).reverse := by rw [trimLeft_lowerStr]
    _ = lowerStr (trimLeft s.reverse).reverse := by rw [lowerStr_reverse]
    _ = lowerStr (trimRight s) := rfl

theorem trimStr_lowerStr (s : List Char) :
    trimStr (lowerStr s) = lowerStr (trimStr s) := by
  unfold trimStr
  rw [trimLeft_lowerStr, trimRight_lowerStr]

/-! ## Cache-key normalization (`normalizeQuery`, `src/app/api/search/route.ts`)

The route matches the query against the case-insensitive regex
`/with dietary preferences: (.+)$/i` (leftmost match; `.` does not match a
line terminator; the capture runs to the end of the string), removes the
matched region to obtain the main query, and normalizes the captured
filter list by `split(",")`, per-term `trim`/`toLowerCase`, default
lexicographic `sort`, and `join(", ")`. -/

/-- Convert a string literal to its character list. -/
def strL (s : String) : List Char := s.data

/-- The literal part of the dietary-filter regex. -/
def dietLit : List Char := strL "with dietary preferences: "

/-- Case-insensitive literal prefix test (both sides case-folded), the way
a case-insensitive regex literal matches. -/
def ciPrefixOf : List Char → List Char → Bool
  | [], _ => true
  | _ :: _, [] => false
  | p :: ps, c :: cs => lowerChar p = lowerChar c && ciPrefixOf ps cs

/-- Whether the regex `with dietary preferences: (.+)$` matches at the
start of `rest`: the literal matches case-insensitively and the remainder
is a non-empty run of `.`-matchable characters reaching the end. -/
def dietMatchHere (rest : List Char) : Bool :=
  ciPrefixOf dietLit rest && !(rest.drop 26).isEmpty && (rest.drop 26).all jsDot

/-- Scan for the leftmost regex match; returns the text before the match
and the captured group (everything after the literal). -/
def findFilterAux : List Char → List Char → Option (List Char × List Char)
  | _, [] => none
  | acc, c :: cs =>
    if dietMatchHere (c :: cs) then some (acc, (c :: cs).drop 26)
    else findFilterAux (acc ++ [c]) cs

/-- `query.match(/with dietary preferences: (.+)$/i)`, returning the text
before the match and the captured filter list. -/
def findFilter (q : List Char) : Option (List Char × List Char) :=
  findFilterAux [] q

/-- JS `String.prototype.split(",")`. -/
def splitOnComma : List Char → List (List Char)
  | [] => [[]]
  | c :: rest =>
    if c = ',' then [] :: splitOnComma rest
    else
      match splitOnComma rest with
      | [] => [[c]]
      | h :: t => (c :: h) :: t

/-- Lexicographic comparison of strings by code unit, the default
comparator of JS `Array.prototype.sort` on strings. -/
def lexLe : List Char → List Char → Bool
  | [], _ => true
  | _ :: _, [] => false
  | a :: as, b :: bs =>
    if a.toNat < b.toNat then true
    else if b.toNat < a.toNat then false
    else lexLe as bs

/-- `lexLe` as a decidable relation for `List.insertionSort`. -/
def lexLeP (a b : List Char) : Prop := lexLe a b = true

instance : DecidableRel lexLeP := fun _ _ => decEq _ _

/-- JS `Array.prototype.join(sep)`. -/
def joinSep (sep : List Char) : List (List Char) → List Char
  | [] => []
  | [x] => x
  | x :: xs => x ++ sep ++ joinSep sep xs

/-- `normalizeQuery` of `src/app/api/search/route.ts` (lines 44–63):
on a filter match, rebuild
```mainQuery + " with dietary preferences: " + sortedTerms``` where
`mainQuery` is the text before the match, trimmed and lower-cased, and
`sortedTerms` are the captured terms split on `","`, trimmed, lower-cased,
sorted, joined with `", "`; otherwise trim and lower-case the query. -/
def normalizeQuery1 (q : List Char) : List Char :=
  match findFilter q with
  | some (before, captured) =>
      lowerStr (trimStr before) ++ strL " with dietary preferences: " ++
        joinSep (strL ", ")
          (List.insertionSort lexLeP
            ((splitOnComma captured).map fun t => lowerStr (trimStr t)))
  | none => lowerStr (trimStr q)

/-- Collapse every run of whitespace to a single space
(JS `replace(/\s+/g, " ")`); the `Bool` records whether the previous
character was inside a whitespace run. -/
def collapseAux : Bool → List Char → List Char
  | _, [] => []
  | prevWs, c :: rest =>
    if isWs c then
      if prevWs then collapseAux true rest
      else ' ' :: collapseAux true rest
    else c :: collapseAux false rest

/-- `normalizeQuery` of the stale-while-revalidate search route
(`query.trim().toLowerCase().replace(/\s+/g, " ")`). -/
def normalizeQuery2 (q : List Char) : List Char :=
  collapseAux false (lowerStr (trimStr q))

example : normalizeQuery1 (strL "  Vegan Pasta ") = strL "vegan pasta" := by decide

example : normalizeQuery1 (strL "a  b") = strL "a  b" := by decide

example :
    normalizeQuery1 (strL "Pasta with dietary preferences: Vegan, gluten-free") =
      strL "pasta with dietary preferences: gluten-free, vegan" := by decide

example : normalizeQuery2 (strL " A  b ") = strL "a b" := by decide

/-! ## Order facts about `lexLe` and sort stability under permutation -/

theorem lexLe_total (a b : List Char) : lexLe a b = true ∨ lexLe b a = true := by
  induction a generalizing b with
  | nil => left; rfl
  | cons x xs ih =>
    cases b with
    | nil => right; rfl
    | cons y ys =>
      by_cases h1 : x.toNat < y.toNat
      · left; simp [lexLe, h1]
      · by_cases h2 : y.toNat < x.toNat
        · right; simp [lexLe, h2]
        · rcases ih ys with h | h
          · left; simp [lexLe, h1, h2, h]
          · right; simp [lexLe, h1, h2, h]

theorem lexLe_antisymm (a b : List Char) (h1 : lexLe a b = true)
    (h2 : lexLe b a = true) : a = b := by
  induction a generalizing b with
  | nil =>
    cases b with
    | nil => rfl
    | cons y ys => simp [lexLe] at h2
  | cons x xs ih =>
    cases b with
    | nil => simp [lexLe] at h1
    | cons y ys =>
      by_cases hxy : x.toNat < y.toNat
      · have hyx : ¬ y.toNat < x.toNat := by omega
        simp [lexLe, hxy, hyx] at h2
      · by_cases hyx : y.toNat < x.toNat
        · simp [lexLe, hxy, hyx] at h1
        · have hx : x = y := char_toNat_inj (by omega)
          subst hx
          simp [lexLe, hxy] at h1 h2
          rw [ih ys h1 h2]

theorem lexLe_trans (a b c : List Char) (h1 : lexLe a b = true)
    (h2 : lexLe b c = true) : lexLe a c = true := by
  induction a generalizing b c with
  | nil => rfl
  | cons x xs ih =>
    cases b with
    | nil => simp [lexLe] at h1
    | cons y ys =>
      cases c with
      | nil => simp [lexLe] at h2
      | cons z zs =>
        by_cases hxy : x.toNat < y.toNat <;> by_cases hyz : y.toNat < z.toNat
        · simp [lexLe, show x.toNat < z.toNat by omega]
        · by_cases hzy : z.toNat < y.toNat
          · simp [lexLe, hyz, hzy] at h2
          · simp [lexLe, show x.toNat < z.toNat by omega]
        · by_cases hyx : y.toNat < x.toNat
          · simp [lexLe, hxy, hyx] at h1
          · simp [lexLe, show x.toNat < z.toNat by omega]
        · by_cases hyx : y.toNat < x.toNat
          · simp [lexLe, hxy, hyx] at h1
          · by_cases hzy : z.toNat < y.toNat
            · simp [lexLe, hyz, hzy] at h2
            · have hxz : ¬ x.toNat < z.toNat := by omega
              have hzx : ¬ z.toNat < x.toNat := by omega
              simp [lexLe, hxy, hyx] at h1
              simp [lexLe, hyz, hzy] at h2
              simp [lexLe, hxz, hzx]
              exact ih ys zs h1 h2

instance : IsTotal (List Char) lexLeP := ⟨fun a b => lexLe_total a b⟩

instance : IsTrans (List Char) lexLeP := ⟨fun a b c => lexLe_trans a b c⟩

instance : IsAntisymm (List Char) lexLeP := ⟨fun a b => lexLe_antisymm a b⟩

/-- Sorting with the JS default comparator is a function of the multiset
of elements: permuted inputs sort identically. -/
theorem insertionSort_eq_of_perm {l1 l2 : List (List Char)} (h : l1.Perm l2) :
    List.insertionSort lexLeP l1 = List.insertionSort lexLeP l2 :=
  List.eq_of_perm_of_sorted
    ((List.perm_insertionSort _ l1).trans (h.trans (List.perm_insertionSort _ l2).symm))
    (List.sorted_insertionSort _ l1) (List.sorted_insertionSort _ l2)

/-! ## Equivalences honoured by `normalizeQuery1` -/

/-- The per-term normalization applied to the captured filter list:
`split(",")` then per-term `trim().toLowerCase()`. -/
def termKeys (captured : List Char) : List (List Char) :=
  (splitOnComma captured).map fun t => lowerStr (trimStr t)

/-- Two queries are key-equivalent when the components `normalizeQuery`
actually uses agree: the same match/no-match structure, main parts equal
after trimming and lower-casing, and filter-term lists equal as multisets
after per-term trimming and lower-casing.  This captures differences of
casing, of leading/trailing whitespace, and of filter-term order — but
not differences of internal whitespace. -/
def queryEquiv (q1 q2 : List Char) : Prop :=
  match findFilter q1, findFilter q2 with
  | none, none => lowerStr (trimStr q1) = lowerStr (trimStr q2)
  | some (b1, c1), some (b2, c2) =>
      lowerStr (trimStr b1) = lowerStr (trimStr b2) ∧
        (termKeys c1).Perm (termKeys c2)
  | _, _ => False

theorem normalizeQuery1_congr (q1 q2 : List Char) (h : queryEquiv q1 q2) :
    normalizeQuery1 q1 = normalizeQuery1 q2 := by
  unfold queryEquiv at h
  unfold normalizeQuery1
  cases hf1 : findFilter q1 with
  | none =>
    cases hf2 : findFilter q2 with
    | none =>
      rw [hf1, hf2] at h
      exact h
    | some p2 =>
      rw [hf1, hf2] at h
      exact h.elim
  | some p1 =>
    cases hf2 : findFilter q2 with
    | none =>
      rw [hf1, hf2] at h
      exact h.elim
    | some p2 =>
      obtain ⟨b1, c1⟩ := p1
      obtain ⟨b2, c2⟩ := p2
      rw [hf1, hf2] at h
      obtain ⟨hmain, hperm⟩ := h
      have hs := insertionSort_eq_of_perm hperm
      unfold termKeys at hs
      dsimp only
      rw [hmain, hs]

theorem lowerStr_drop (s : List Char) (n : Nat) :
    (lowerStr s).drop n = lowerStr (s.drop n) := by
  unfold lowerStr
  exact (List.map_drop ..).symm

theorem lowerStr_all_jsDot (s : List Char) :
    (lowerStr s).all jsDot = s.all jsDot := by
  induction s with
  | nil => rfl
  | cons c cs ih =>
    unfold lowerStr at *
    simp only [List.map_cons, List.all_cons, jsDot_lowerChar, ih]

theorem ciPrefixOf_lowerStr (p s : List Char) :
    ciPrefixOf p (lowerStr s) = ciPrefixOf p s := by
  induction p generalizing s with
  | nil => rfl
  | cons x xs ih =>
    cases s with
    | nil => rfl
    | cons c cs =>
      show (decide (lowerChar x = lowerChar (lowerChar c)) && ciPrefixOf xs (lowerStr cs)) = _
      rw [lowerChar_idem, ih]
      rfl

theorem dietMatchHere_lowerStr (s : List Char) :
    dietMatchHere (lowerStr s) = dietMatchHere s := by
  unfold dietMatchHere
  rw [ciPrefixOf_lowerStr, lowerStr_drop, lowerStr_all_jsDot]
  have : (lowerStr (s.drop 26)).isEmpty = (s.drop 26).isEmpty := by
    unfold lowerStr
    cases s.drop 26 <;> rfl
  rw [this]

theorem findFilterAux_acc (acc rest : List Char) :
    findFilterAux acc rest =
      (findFilterAux [] rest).map fun pc => (acc ++ pc.1, pc.2) := by
  induction rest generalizing acc with
  | nil => rfl
  | cons c cs ih =>
    unfold findFilterAux
    split
    · simp
    · rw [ih (acc ++ [c])]
      simp only [List.nil_append]
      rw [ih [c]]
      cases findFilterAux [] cs with
      | none => rfl
      | some pc => simp [List.append_assoc]

theorem findFilter_lowerStr (q : List Char) :
    findFilter (lowerStr q) =
      (findFilter q).map fun pc => (lowerStr pc.1, lowerStr pc.2) := by
  unfold findFilter
  induction q with
  | nil => rfl
  | cons c cs ih =>
    show findFilterAux [] (lowerChar c :: lowerStr cs) = _
    unfold findFilterAux
    have hm : dietMatchHere (lowerChar c :: lowerStr cs) = dietMatchHere (c :: cs) := by
      have := dietMatchHere_lowerStr (c :: cs)
      simpa [lowerStr] using this
    rw [hm]
    split
    · have : (lowerChar c :: lowerStr cs).drop 26 = lowerStr ((c :: cs).drop 26) := by
        have := lowerStr_drop (c :: cs) 26
        simpa [lowerStr] using this
      rw [this]
      rfl
    · simp only [List.nil_append]
      rw [findFilterAux_acc [lowerChar c], findFilterAux_acc [c], ih, Option.map_map]
      cases findFilterAux [] cs with
      | none => rfl
      | some pc => simp [lowerStr]

theorem lowerChar_eq_comma (c : Char) : lowerChar c = ',' ↔ c = ',' := by
  constructor
  · intro h
    have ht := lowerChar_toNat c
    rw [h] at ht
    have hc : (',' : Char).toNat = 44 := rfl
    apply char_toNat_inj
    rw [hc]
    by_cases hr : 65 ≤ c.toNat ∧ c.toNat ≤ 90
    · rw [if_pos hr] at ht
      omega
    · rw [if_neg hr] at ht
      omega
  · intro h
    subst h
    rfl

theorem splitOnComma_lowerStr (s : List Char) :
    splitOnComma (lowerStr s) = (splitOnComma s).map lowerStr := by
  induction s with
  | nil => rfl
  | cons c cs ih =>
    show splitOnComma (lowerChar c :: lowerStr cs) = _
    unfold splitOnComma
    by_cases hc : c = ','
    · rw [if_pos ((lowerChar_eq_comma c).mpr hc), if_pos hc, ih]
      rfl
    · rw [if_neg (fun h => hc ((lowerChar_eq_comma c).mp h)), if_neg hc, ih]
      cases hsp : splitOnComma cs with
      | nil => rfl
      | cons h t => rfl

theorem termKeys_lowerStr (s : List Char) : termKeys (lowerStr s) = termKeys s := by
  unfold termKeys
  rw [splitOnComma_lowerStr, List.map_map]
  exact List.map_congr_left fun t _ => by
    show lowerStr (trimStr (lowerStr t)) = lowerStr (trimStr t)
    rw [trimStr_lowerStr, lowerStr_idem]

theorem queryEquiv_lowerStr (q : List Char) : queryEquiv (lowerStr q) q := by
  unfold queryEquiv
  rw [findFilter_lowerStr]
  cases findFilter q with
  | none =>
    show lowerStr (trimStr (lowerStr q)) = lowerStr (trimStr q)
    rw [trimStr_lowerStr, lowerStr_idem]
  | some pc =>
    refine ⟨?_, ?_⟩
    · show lowerStr (trimStr (lowerStr pc.1)) = lowerStr (trimStr pc.1)
      rw [trimStr_lowerStr, lowerStr_idem]
    · show (termKeys (lowerStr pc.2)).Perm (termKeys pc.2)
      rw [termKeys_lowerStr]

theorem dietMatchHere_ws (w : Char) (hw : isWs w = true) (rest : List Char) :
    dietMatchHere (w :: rest) = false := by
  unfold dietMatchHere
  have hci : ciPrefixOf dietLit (w :: rest) = false := by
    show (decide (lowerChar 'w' = lowerChar w) && ciPrefixOf (strL "ith dietary preferences: ") rest) = false
    have hne : lowerChar 'w' ≠ lowerChar w := by
      intro h
      have h1 : (lowerChar 'w').toNat = 119 := rfl
      have h2 := lowerChar_toNat w
      have hwn : w.toNat = 32 ∨ w.toNat = 9 ∨ w.toNat = 10 ∨ w.toNat = 11 ∨
          w.toNat = 12 ∨ w.toNat = 13 := by
        have := of_decide_eq_true hw
        exact this
      rw [h] at h1
      rw [if_neg (by omega)] at h2
      omega
    simp [hne]
  rw [hci]
  rfl

theorem trimLeft_ws_append (ws s : List Char) (hws : ∀ w ∈ ws, isWs w = true) :
    trimLeft (ws ++ s) = trimLeft s := by
  induction ws with
  | nil => rfl
  | cons w ws' ih =>
    unfold trimLeft at *
    simp only [List.cons_append, List.dropWhile_cons]
    rw [hws w (by simp)]
    exact ih fun x hx => hws x (by simp [hx])

theorem trimStr_ws_append (ws s : List Char) (hws : ∀ w ∈ ws, isWs w = true) :
    trimStr (ws ++ s) = trimStr s := by
  unfold trimStr
  rw [trimLeft_ws_append ws s hws]

theorem findFilter_ws_append (ws q : List Char) (hws : ∀ w ∈ ws, isWs w = true) :
    findFilter (ws ++ q) = (findFilter q).map fun pc => (ws ++ pc.1, pc.2) := by
  induction ws with
  | nil =>
    simp only [List.nil_append]
    cases findFilter q with
    | none => rfl
    | some pc => simp
  | cons w ws' ih =>
    show findFilterAux [] (w :: (ws' ++ q)) = _
    unfold findFilterAux
    rw [dietMatchHere_ws w (hws w (by simp)) (ws' ++ q)]
    simp only [Bool.false_eq_true, if_false, List.nil_append]
    rw [findFilterAux_acc [w]]
    show Option.map _ (findFilter (ws' ++ q)) = _
    rw [ih fun x hx => hws x (by simp [hx]), Option.map_map]
    cases findFilter q with
    | none => rfl
    | some pc => simp

theorem queryEquiv_ws_append (ws q : List Char) (hws : ∀ w ∈ ws, isWs w = true) :
    queryEquiv (ws ++ q) q := by
  unfold queryEquiv
  rw [findFilter_ws_append ws q hws]
  cases findFilter q with
  | none =>
    show lowerStr (trimStr (ws ++ q)) = lowerStr (trimStr q)
    rw [trimStr_ws_append ws q hws]
  | some pc =>
    refine ⟨?_, ?_⟩
    · show lowerStr (trimStr (ws ++ pc.1)) = lowerStr (trimStr pc.1)
      rw [trimStr_ws_append ws pc.1 hws]
    · exact List.Perm.refl _

/-! ## Rate limiter (`src/lib/rate-limiter.ts`)

`rateLimit(ip)` keeps, per IP, the list of admission timestamps.  The
model passes that per-identity list explicitly and returns the result
together with the list stored back into the cache.  `limit = 5`
requests per `interval = 60000` ms. -/

/-- Interval of the rate limiter, in milliseconds. -/
def rlInterval : Int := 60000

/-- Result shape of `rateLimit`: the limited branch carries no
`remaining` field (it is `undefined` in JS), hence the `Option`. -/
structure RateLimitResult where
  limited : Bool
  remaining : Option Int
  resetTime : Int
deriving DecidableEq, Inhabited

/-- `rateLimit` (lines 103–140): filter out timestamps at or before
`now - interval`, store the survivors; if 5 or more survive, report
limited with `resetTime = oldest survivor + interval`; otherwise append
`now`, store, and report `remaining = 5 - count`. -/
def rateLimit (now : Int) (stored : List Int) : RateLimitResult × List Int :=
  let validTokens := stored.filter fun time => time > now - rlInterval
  if validTokens.length ≥ 5 then
    (⟨true, none, validTokens.headD 0 + rlInterval⟩, validTokens)
  else
    (⟨false, some (5 - ((validTokens ++ [now]).length : Int)),
      (validTokens ++ [now]).headD 0 + rlInterval⟩, validTokens ++ [now])

/-- Run a sequence of `rateLimit` calls (one identity), collecting the
results and threading the stored list. -/
def runCalls : List Int → List Int → List RateLimitResult × List Int
  | [], s => ([], s)
  | t :: ts, s =>
    let p := rateLimit t s
    let q := runCalls ts p.2
    (p.1 :: q.1, q.2)

example :
    ((runCalls [0, 1, 2, 3, 4, 5] []).1.map (·.limited)) =
      [false, false, false, false, false, true] := by decide

/-! ## Cache store and stale-while-revalidate
(`src/app/api/image-generation/route.ts`, second document) -/

/-- A cache entry: `{ result, expiry }`. -/
structure CacheEntry where
  result : List Char
  expiry : Int
deriving DecidableEq, Inhabited

/-- 24-hour TTL of `src/app/api/search/route.ts`. -/
def CACHE_TTL1 : Int := 86400000

/-- 12-hour TTL of the stale-while-revalidate search route. -/
def CACHE_TTL2 : Int := 43200000

/-- What `staleWhileRevalidate` does before returning to its caller:
the value handed back (or the propagated failure), the cache entry it
wrote for the key in the foreground (`none` when it wrote nothing), and
whether a background revalidation was scheduled via `setTimeout`. -/
structure SwrOutcome where
  outcome : Except Unit (List Char × Bool)
  write : Option CacheEntry
  bgScheduled : Bool

/-- The shared miss path of `staleWhileRevalidate` (no usable cache
entry): await the producer; on success write `{ fresh, now + TTL }` and
return it with `fromCache = false`; a producer failure propagates (there
is no `try` around the foreground `fetchFn()`) and writes nothing. -/
def swrMiss (now : Int)
    (producer : Except Unit (List Char)) : SwrOutcome :=
  match producer with
  | .ok v => ⟨.ok (v, false), some ⟨v, now + CACHE_TTL2⟩, false⟩
  | .error e => ⟨.error e, none, false⟩

/-- `staleWhileRevalidate` (lines 553–593): fresh entries
(`expiry > now`) are returned as-is; stale entries
(`expiry > now - CACHE_TTL`) are returned as-is while a background
revalidation is scheduled; anything else takes the miss path.
`producer` is the outcome `fetchFn` would produce if awaited. -/
def staleWhileRevalidate (now : Int) (entry : Option CacheEntry)
    (producer : Except Unit (List Char)) : SwrOutcome :=
  match entry with
  | some c =>
    if c.expiry > now then ⟨.ok (c.result, true), none, false⟩
    else if c.expiry > now - CACHE_TTL2 then ⟨.ok (c.result, true), none, true⟩
    else swrMiss now producer
  | none => swrMiss now producer

/-- The scheduled background revalidation body: `fetchFn()` then
overwrite the entry with `{ fresh, Date.now() + TTL }`; the `catch`
only logs, so a failure leaves the entry as it stands. -/
def revalidate (tBg : Int) (entry : Option CacheEntry)
    (producer : Except Unit (List Char)) : Option CacheEntry :=
  match producer with
  | .ok v => some ⟨v, tBg + CACHE_TTL2⟩
  | .error _ => entry

/-- The response cache, an association list keyed by normalized query
(`Map` in the source). -/
abbrev CacheMap : Type := List (List Char × CacheEntry)

/-- `Map.prototype.get`. -/
def cacheGet : CacheMap → List Char → Option CacheEntry
  | [], _ => none
  | (k, v) :: rest, key => if k = key then some v else cacheGet rest key

/-- `Map.prototype.set` (replace or append). -/
def cacheSet : CacheMap → List Char → CacheEntry → CacheMap
  | [], key, v => [(key, v)]
  | (k, w) :: rest, key, v =>
    if k = key then (key, v) :: rest else (k, w) :: cacheSet rest key v

/-- `cleanExpiredCache`: delete every entry with `expiry < now`. -/
def cleanExpiredCache (now : Int) (m : CacheMap) : CacheMap :=
  m.filter fun kv => !(kv.2.expiry < now)

/-! ## A model of `JSON.parse`

Executable recursive-descent parser for the JSON grammar, used to embed
every `JSON.parse` call site.  Numbers keep their lexeme (no numeric
value is ever computed from them in the source).  The value-level
recursion is bounded by fuel; `jsonParse` supplies `length + 1`, which
suffices because every nesting level consumes input. -/

inductive Json where
  | JNull : Json
  | JBool (b : Bool) : Json
  | JNum (lexeme : List Char) : Json
  | JStr (s : List Char) : Json
  | JArr (elems : List Json) : Json
  | JObj (fields : List (List Char × Json)) : Json

/-- Whitespace the JSON grammar allows between tokens. -/
def jsonWsChar (c : Char) : Bool :=
  decide (c.toNat = 32 ∨ c.toNat = 9 ∨ c.toNat = 10 ∨ c.toNat = 13)

/-- Skip inter-token whitespace. -/
def skipJsonWs (s : List Char) : List Char := s.dropWhile jsonWsChar

/-- Value of a hex digit. -/
def hexVal (c : Char) : Option Nat :=
  if 48 ≤ c.toNat ∧ c.toNat ≤ 57 then some (c.toNat - 48)
  else if 65 ≤ c.toNat ∧ c.toNat ≤ 70 then some (c.toNat - 55)
  else if 97 ≤ c.toNat ∧ c.toNat ≤ 102 then some (c.toNat - 87)
  else none

/-- Parse the body of a JSON string after the opening quote; returns the
decoded characters and the input after the closing quote.  Raw control
characters are rejected, escapes are decoded. -/
def parseStringBody : List Char → Option (List Char × List Char)
  | [] => none
  | '"' :: rest => some ([], rest)
  | '\\' :: e :: rest =>
    if e = '"' then (parseStringBody rest).map fun p => ('"' :: p.1, p.2)
    else if e = '\\' then (parseStringBody rest).map fun p => ('\\' :: p.1, p.2)
    else if e = '/' then (parseStringBody rest).map fun p => ('/' :: p.1, p.2)
    else if e = 'b' then (parseStringBody rest).map fun p => ('\x08' :: p.1, p.2)
    else if e = 'f' then (parseStringBody rest).map fun p => ('\x0c' :: p.1, p.2)
    else if e = 'n' then (parseStringBody rest).map fun p => ('\n' :: p.1, p.2)
    else if e = 'r' then (parseStringBody rest).map fun p => ('\r' :: p.1, p.2)
    else if e = 't' then (parseStringBody rest).map fun p => ('\t' :: p.1, p.2)
    else if e = 'u' then
      match rest with
      | h1 :: h2 :: h3 :: h4 :: rest2 =>
        match hexVal h1, hexVal h2, hexVal h3, hexVal h4 with
        | some a, some b, some c, some d =>
          (parseStringBody rest2).map fun p =>
            (Char.ofNat (a * 4096 + b * 256 + c * 16 + d) :: p.1, p.2)
        | _, _, _, _ => none
      | _ => none
    else none
  | c :: rest =>
    if c.toNat < 32 then none
    else (parseStringBody rest).map fun p => (c :: p.1, p.2)

/-- ASCII digit test. -/
def isDigitC (c : Char) : Bool := decide (48 ≤ c.toNat ∧ c.toNat ≤ 57)

/-- Integer part of a JSON number (`0` or a nonzero-led digit run). -/
def parseIntPart : List Char → Option (List Char × List Char)
  | [] => none
  | c :: r =>
    if c = '0' then some (['0'], r)
    else if isDigitC c then some (c :: r.takeWhile isDigitC, r.dropWhile isDigitC)
    else none

/-- Optional fraction part of a JSON number. -/
def parseFracPart : List Char → Option (List Char × List Char)
  | '.' :: r =>
    match r.takeWhile isDigitC with
    | [] => none
    | ds => some ('.' :: ds, r.dropWhile isDigitC)
  | s => some ([], s)

/-- Optional exponent part of a JSON number. -/
def parseExpPart : List Char → Option (List Char × List Char)
  | [] => some ([], [])
  | c :: r =>
    if c = 'e' ∨ c = 'E' then
      match r with
      | [] => none
      | sgn :: r2 =>
        if sgn = '+' ∨ sgn = '-' then
          match r2.takeWhile isDigitC with
          | [] => none
          | ds => some (c :: sgn :: ds, r2.dropWhile isDigitC)
        else
          match r.takeWhile isDigitC with
          | [] => none
          | ds => some (c :: ds, r.dropWhile isDigitC)
    else some ([], c :: r)

/-- Lex a JSON number, returning its lexeme and the remaining input. -/
def parseNumber (s : List Char) : Option (List Char × List Char) :=
  let signed := match s with
    | '-' :: r => (['-'], r)
    | _ => (([] : List Char), s)
  match parseIntPart signed.2 with
  | none => none
  | some (ip, s2) =>
    match parseFracPart s2 with
    | none => none
    | some (fp, s3) =>
      match parseExpPart s3 with
      | none => none
      | some (ep, s4) => some (signed.1 ++ ip ++ fp ++ ep, s4)

mutual

/-- Parse one JSON value (fuelled). -/
def parseValue : Nat → List Char → Option (Json × List Char)
  | 0, _ => none
  | Nat.succ fuel, s =>
    match skipJsonWs s with
    | 'n' :: 'u' :: 'l' :: 'l' :: r => some (Json.JNull, r)
    | 't' :: 'r' :: 'u' :: 'e' :: r => some (Json.JBool true, r)
    | 'f' :: 'a' :: 'l' :: 's' :: 'e' :: r => some (Json.JBool false, r)
    | '"' :: r => (parseStringBody r).map fun p => (Json.JStr p.1, p.2)
    | '[' :: r =>
      match skipJsonWs r with
      | ']' :: r2 => some (Json.JArr [], r2)
      | r2 => (parseElems fuel r2).map fun p => (Json.JArr p.1, p.2)
    | '{' :: r =>
      match skipJsonWs r with
      | '}' :: r2 => some (Json.JObj [], r2)
      | r2 => (parseMembers fuel r2).map fun p => (Json.JObj p.1, p.2)
    | s2 => (parseNumber s2).map fun p => (Json.JNum p.1, p.2)

/-- Parse the elements of a non-empty JSON array (fuelled). -/
def parseElems : Nat → List Char → Option (List Json × List Char)
  | 0, _ => none
  | Nat.succ fuel, s =>
    match parseValue fuel s with
    | none => none
    | some (v, r) =>
      match skipJsonWs r with
      | ',' :: r2 => (parseElems fuel r2).map fun p => (v :: p.1, p.2)
      | ']' :: r2 => some ([v], r2)
      | _ => none

/-- Parse the members of a non-empty JSON object (fuelled). -/
def parseMembers : Nat → List Char → Option (List (List Char × Json) × List Char)
  | 0, _ => none
  | Nat.succ fuel, s =>
    match skipJsonWs s with
    | '"' :: r =>
      match parseStringBody r with
      | none => none
      | some (key, r2) =>
        match skipJsonWs r2 with
        | ':' :: r3 =>
          match parseValue fuel r3 with
          | none => none
          | some (v, r4) =>
            match skipJsonWs r4 with
            | ',' :: r5 => (parseMembers fuel r5).map fun p => ((key, v) :: p.1, p.2)
            | '}' :: r5 => some ([(key, v)], r5)
            | _ => none
        | _ => none
    | _ => none

end

/-- `JSON.parse`: one value, then only trailing whitespace. -/
def jsonParse (s : List Char) : Option Json :=
  match parseValue (s.length + 1) s with
  | some (v, rest) => if (skipJsonWs rest).isEmpty then some v else none
  | none => none

example : jsonParse (strL "[]") = some (Json.JArr []) := rfl

example : jsonParse (strL " \x7b \x22a\x22 : [1, \x22x\x22, null] \x7d ") =
    some (Json.JObj [(['a'], Json.JArr [Json.JNum ['1'], Json.JStr ['x'], Json.JNull])]) := rfl

example : jsonParse (strL "[1,]") = none := rfl

/-! ## Response cleanup and the recipe parser
(`cleanJsonResponse` in `src/app/api/search/route.ts`, duplicated in the
cleanup branch of `parseRecipeData` in `src/context/ui-context.tsx`) -/

/-- `replace(/```json|```/g, "")`: delete every occurrence, preferring
the longer alternative `\x60\x60\x60json` at each position, scanning left
to right. -/
def stripFences : List Char → List Char
  | '\x60' :: '\x60' :: '\x60' :: 'j' :: 's' :: 'o' :: 'n' :: rest => stripFences rest
  | '\x60' :: '\x60' :: '\x60' :: rest => stripFences rest
  | c :: rest => c :: stripFences rest
  | [] => []

/-- JS `String.prototype.substring(a, b)`: clamps both indices to the
string length and swaps them when `a > b`. -/
def jsSubstring (s : List Char) (a b : Nat) : List Char :=
  let a2 := min a s.length
  let b2 := min b s.length
  (s.drop (min a2 b2)).take (max a2 b2 - min a2 b2)

/-- Does the string start with `[`? -/
def startsWithLB : List Char → Bool
  | '[' :: _ => true
  | _ => false

/-- `cleanJsonResponse` (lines 326–336): strip code fences and trim; if
the result does not start with `[` but contains both `[` and `]`, slice
from the first `[` to the last `]` inclusive. -/
def cleanJsonResponse (s : List Char) : List Char :=
  let cleaned := trimStr (stripFences s)
  if !(startsWithLB cleaned) && cleaned.contains '[' && cleaned.contains ']' then
    jsSubstring cleaned (cleaned.findIdx (· = '['))
      (cleaned.length - 1 - cleaned.reverse.findIdx (· = ']') + 1)
  else cleaned

example : cleanJsonResponse (strL "\x60\x60\x60json\n[1]\n\x60\x60\x60") = strL "[1]" := rfl

example : cleanJsonResponse (strL "text [1, 2] more") = strL "[1, 2]" := rfl

/-- Decimal digits of a natural number (fuelled division loop). -/
def natToCharsAux : Nat → Nat → List Char
  | 0, _ => []
  | Nat.succ fuel, n =>
    if n < 10 then [Char.ofNat (48 + n)]
    else natToCharsAux fuel (n / 10) ++ [Char.ofNat (48 + n % 10)]

/-- Decimal rendering of a natural number (template-literal coercion). -/
def natToChars (n : Nat) : List Char := natToCharsAux (n + 1) n

example : natToChars 125 = strL "125" := rfl

/-- Uppercase hex digit. -/
def hexDigitChar (n : Nat) : Char :=
  if n < 10 then Char.ofNat (48 + n) else Char.ofNat (55 + n)

/-- `%XX` escape of one byte. -/
def byteHex (b : Nat) : List Char := ['%', hexDigitChar (b / 16), hexDigitChar (b % 16)]

/-- UTF-8 bytes of a code point. -/
def utf8Bytes (n : Nat) : List Nat :=
  if n < 128 then [n]
  else if n < 2048 then [192 + n / 64, 128 + n % 64]
  else if n < 65536 then [224 + n / 4096, 128 + n / 64 % 64, 128 + n % 64]
  else [240 + n / 262144, 128 + n / 4096 % 64, 128 + n / 64 % 64, 128 + n % 64]

/-- Characters `encodeURIComponent` leaves unescaped: alphanumerics and
`- _ . ! ~ * ' ( )`. -/
def uriUnreserved (c : Char) : Bool :=
  decide ((48 ≤ c.toNat ∧ c.toNat ≤ 57) ∨ (65 ≤ c.toNat ∧ c.toNat ≤ 90) ∨
    (97 ≤ c.toNat ∧ c.toNat ≤ 122) ∨ c.toNat = 45 ∨ c.toNat = 95 ∨
    c.toNat = 46 ∨ c.toNat = 33 ∨ c.toNat = 126 ∨ c.toNat = 42 ∨
    c.toNat = 39 ∨ c.toNat = 40 ∨ c.toNat = 41)

/-- `encodeURIComponent`. -/
def encodeURIComponent (s : List Char) : List Char :=
  (s.map fun c =>
    if uriUnreserved c then [c]
    else ((utf8Bytes c.toNat).map byteHex).flatten).flatten

example : encodeURIComponent (strL "a b/c") = strL "a%20b%2Fc" := rfl

/-- Last-wins lookup of an object field; a missing field is `JNull`
(JS `undefined` — the two are indistinguishable to every use site:
truthiness tests and `Array.isArray`). -/
def getFieldList (fields : List (List Char × Json)) (key : List Char) : Json :=
  match fields.reverse.find? fun kv => kv.1 = key with
  | some kv => kv.2
  | none => Json.JNull

/-- Field access `recipe.key` on an arbitrary parsed value. -/
def getField (j : Json) (key : List Char) : Json :=
  match j with
  | Json.JObj fields => getFieldList fields key
  | _ => Json.JNull

/-- Is the mantissa of a number lexeme all zeroes (the number is `0`)? -/
def numLexemeIsZero (lex : List Char) : Bool :=
  (lex.takeWhile fun c => !(decide (c.toNat = 101) || decide (c.toNat = 69))).all
    fun c => !(decide (49 ≤ c.toNat ∧ c.toNat ≤ 57))

/-- JS truthiness of a parsed JSON value (`undefined`/`null`, `false`,
`0`, and `""` are falsy; arrays and objects are truthy). -/
def truthy : Json → Bool
  | Json.JNull => false
  | Json.JBool b => b
  | Json.JNum lex => !(numLexemeIsZero lex)
  | Json.JStr s => !s.isEmpty
  | Json.JArr _ => true
  | Json.JObj _ => true

/-- JS `a || b` on a parsed value with a fallback. -/
def jsOr (v fallback : Json) : Json := if truthy v then v else fallback

/-- `Array.isArray`. -/
def isArr : Json → Bool
  | Json.JArr _ => true
  | _ => false

/-- Elements of an array value. -/
def arrElems : Json → List Json
  | Json.JArr es => es
  | _ => []

/-- String coercion applied by `encodeURIComponent` to its argument.
Only the string case is ever exercised by the embedded call sites (the
argument is `recipe.title || "food"`); the composite cases follow JS
`toString` for the empty-ish approximations noted here. -/
def jsonToStr : Json → List Char
  | Json.JNull => strL "null"
  | Json.JBool true => strL "true"
  | Json.JBool false => strL "false"
  | Json.JNum lex => lex
  | Json.JStr s => s
  | Json.JArr _ => []
  | Json.JObj _ => strL "[object Object]"

/-- The object `parseRecipeData` builds for each array element
(`src/context/ui-context.tsx`, lines 107–117): field values keep their
parsed JSON shape (TypeScript applies no coercion). -/
structure Recipe where
  id : Json
  title : Json
  description : Json
  ingredients : List Json
  instructions : List Json
  prepTime : Json
  imageUrl : List Char
  dietaryInfo : List Json
  recipeType : Json

/-- Map one parsed element to a `Recipe` with the field fallbacks of the
source: positional id `recipe-{index+1}`, `"Untitled Recipe"`, the
description placeholder, empty sequences for non-array list fields,
`"Unknown"` prep time, placeholder image URL, `null` recipe type. -/
def mapRecipe (index : Nat) (recipe : Json) : Recipe where
  id := jsOr (getField recipe (strL "id"))
    (Json.JStr (strL "recipe-" ++ natToChars (index + 1)))
  title := jsOr (getField recipe (strL "title")) (Json.JStr (strL "Untitled Recipe"))
  description := jsOr (getField recipe (strL "description"))
    (Json.JStr (strL "No description available"))
  ingredients :=
    if isArr (getField recipe (strL "ingredients")) then
      arrElems (getField recipe (strL "ingredients"))
    else []
  instructions :=
    if isArr (getField recipe (strL "instructions")) then
      arrElems (getField recipe (strL "instructions"))
    else []
  prepTime := jsOr (getField recipe (strL "prepTime")) (Json.JStr (strL "Unknown"))
  imageUrl := strL "/placeholder.svg?height=192&width=384&query=" ++
    encodeURIComponent (jsonToStr (jsOr (getField recipe (strL "title"))
      (Json.JStr (strL "food"))))
  dietaryInfo :=
    if isArr (getField recipe (strL "dietaryInfo")) then
      arrElems (getField recipe (strL "dietaryInfo"))
    else []
  recipeType := jsOr (getField recipe (strL "recipeType")) Json.JNull

/-- `parsedData.map((recipe, index) => ...)`. -/
def mapRecipes (elems : List Json) : List Recipe :=
  elems.mapIdx fun i r => mapRecipe i r

/-- The cleanup branch of `parseRecipeData` (lines 123–153): fence
stripping, trimming and bracket slicing exactly as `cleanJsonResponse`,
then `JSON.parse`; a non-array result throws, a parse failure rethrows. -/
def parseRecipeCleanup (jsonString : List Char) : Except Unit (List Recipe) :=
  match jsonParse (cleanJsonResponse jsonString) with
  | none => .error ()
  | some v =>
    match v with
    | Json.JArr elems => .ok (mapRecipes elems)
    | _ => .error ()

/-- `parseRecipeData` (lines 99–158): fast path parses the raw string
and maps it if it is an array; a non-array fast-path value or a parse
failure falls through to the cleanup branch. -/
def parseRecipeData (jsonString : List Char) : Except Unit (List Recipe) :=
  match jsonParse jsonString with
  | some v =>
    match v with
    | Json.JArr elems => .ok (mapRecipes elems)
    | _ => parseRecipeCleanup jsonString
  | none => parseRecipeCleanup jsonString

example :
    parseRecipeData (strL "\x60\x60\x60json\n[\x7b\x22title\x22:\x22A\x22\x7d]\n\x60\x60\x60") =
      .ok [mapRecipe 0 (Json.JObj [(strL "title", Json.JStr ['A'])])] := rfl

example :
    (mapRecipe 0 (Json.JObj [(strL "title", Json.JStr ['A'])])).id =
      Json.JStr (strL "recipe-1") := rfl

example : parseRecipeData (strL "[]") = .ok [] := rfl

example : parseRecipeData (strL "\x7b\x7d") = .error () := rfl

/-! ## The search endpoints

`searchPOST1` embeds the `POST` handler of `src/app/api/search/route.ts`
(rate limit → body/validation → cache lookup → API key → upstream →
clean/parse/validate → cache write).  `searchPOST2` embeds the
stale-while-revalidate `POST` handler of the second document in
`src/app/api/image-generation/route.ts`.  Inputs that are outside the
program (the clock, the request body, the upstream behaviour, the
`Math.random() < 0.1` cleanup draw) are parameters. -/

/-- The error messages the handlers can respond with, one constructor
per message literal in the source. -/
inductive ErrMsg where
  | rateLimited       -- "Rate limit exceeded. Please try again in ..."
  | queryRequired     -- "Search query is required"
  | invalidQuery      -- "Invalid search query. Please try again ..."
  | notConfigured     -- "Search service is not properly configured"
  | upstreamFailed    -- "Failed to get response from Deepseek API"
  | invalidRecipeData -- "The API did not return valid recipe data. ..."
  | parseFailed       -- "Failed to parse recipe data from the API. ..."
  | processFailed     -- "Failed to process your request"
  | searchFailed      -- "Failed to get search results"
deriving DecidableEq

/-- Shape of a handler response: HTTP status, the `X-Cache` header when
present (`true` = `HIT`), the `result` payload, the `error` message, and
whether a `details` field carrying upstream/internal error information
is included in the body. -/
structure ApiResponse where
  status : Nat
  xCache : Option Bool
  result : Option (List Char)
  error : Option ErrMsg
  detailsLeaked : Bool
deriving DecidableEq

/-- Behaviour of the upstream `fetch` for one request: the call (or the
envelope `response.json()`) rejects; or it resolves non-ok with an HTTP
status; or it resolves ok with `choices[0].message.content` (`none` when
the envelope misses that path). -/
inductive UpstreamOutcome where
  | throw : UpstreamOutcome
  | httpErr (status : Nat) : UpstreamOutcome
  | ok (content : Option (List Char)) : UpstreamOutcome
deriving DecidableEq

/-- JS `String.prototype.includes`: does `needle` occur in `hay`? -/
def containsSub (needle hay : List Char) : Bool :=
  match hay with
  | [] => needle.isEmpty
  | _ :: rest => List.isPrefixOf needle hay || containsSub needle rest

/-- Continuation of `searchPOST1` past the cache check: API-key guard,
upstream call, `cleanJsonResponse`, `JSON.parse`, array validation,
cache write, optional probabilistic cleanup. -/
def searchPOST1Up (now : Int) (cacheKey : List Char)
    (apiKey : Option (List Char)) (upstream : UpstreamOutcome) (rand10 : Bool)
    (cache : CacheMap) (store2 : List Int) : ApiResponse × CacheMap × List Int :=
  match apiKey with
  | none => (⟨500, none, none, some .notConfigured, false⟩, cache, store2)
  | some _ =>
    match upstream with
    | .throw => (⟨500, none, none, some .upstreamFailed, true⟩, cache, store2)
    | .httpErr s => (⟨s, none, none, some .upstreamFailed, true⟩, cache, store2)
    | .ok content =>
      let responseText := match content with
        | some c => if c.isEmpty then strL "[]" else c
        | none => strL "[]"
      let cleanedResponse := cleanJsonResponse responseText
      match jsonParse cleanedResponse with
      | none => (⟨500, none, none, some .parseFailed, false⟩, cache, store2)
      | some (Json.JArr elems) =>
        if elems.isEmpty then
          (⟨500, none, none, some .invalidRecipeData, false⟩, cache, store2)
        else
          let cache1 := cacheSet cache cacheKey ⟨cleanedResponse, now + CACHE_TTL1⟩
          (⟨200, some false, some cleanedResponse, none, false⟩,
            if rand10 then cleanExpiredCache now cache1 else cache1, store2)
      | some _ => (⟨500, none, none, some .invalidRecipeData, false⟩, cache, store2)

/-- The `POST` handler of `src/app/api/search/route.ts`.  `body` is the
outcome of `req.json()` followed by the `body?.query` string extraction
(`.error` = the body rejects; `.ok none` = no usable string). -/
def searchPOST1 (now : Int) (store : List Int)
    (body : Except Unit (Option (List Char))) (apiKey : Option (List Char))
    (upstream : UpstreamOutcome) (rand10 : Bool) (cache : CacheMap) :
    ApiResponse × CacheMap × List Int :=
  let rl := rateLimit now store
  if rl.1.limited then
    (⟨429, none, none, some .rateLimited, false⟩, cache, rl.2)
  else
    match body with
    | .error _ => (⟨500, none, none, some .processFailed, true⟩, cache, rl.2)
    | .ok none => (⟨400, none, none, some .queryRequired, false⟩, cache, rl.2)
    | .ok (some q) =>
      if (trimStr q).isEmpty then
        (⟨400, none, none, some .queryRequired, false⟩, cache, rl.2)
      else if containsSub (strL "Failed to fetch search results") q ||
          containsSub (strL "Error:") q then
        (⟨400, none, none, some .invalidQuery, false⟩, cache, rl.2)
      else
        let cacheKey := normalizeQuery1 q
        match cacheGet cache cacheKey with
        | some e =>
          if e.expiry > now then
            (⟨200, some true, some e.result, none, false⟩, cache, rl.2)
          else searchPOST1Up now cacheKey apiKey upstream rand10 cache rl.2
        | none => searchPOST1Up now cacheKey apiKey upstream rand10 cache rl.2

/-- The producer the stale-while-revalidate route hands to
`staleWhileRevalidate` (`fetchFreshData`): it throws when the API key is
missing, when `fetch` rejects, on a non-ok status, and when
`validateApiResponse` finds no (truthy) content. -/
def producerOutcome (apiKey : Option (List Char))
    (upstream : UpstreamOutcome) : Except Unit (List Char) :=
  match apiKey with
  | none => .error ()
  | some _ =>
    match upstream with
    | .throw => .error ()
    | .httpErr _ => .error ()
    | .ok none => .error ()
    | .ok (some c) => if c.isEmpty then .error () else .ok c

/-- The stale-while-revalidate `POST` handler (image-generation file,
second document, lines 368–514).  The last component reports whether a
background revalidation was scheduled. -/
def searchPOST2 (now : Int) (store : List Int)
    (body : Except Unit (Option (List Char))) (apiKey : Option (List Char))
    (upstream : UpstreamOutcome) (cache : CacheMap) :
    ApiResponse × CacheMap × List Int × Bool :=
  let rl := rateLimit now store
  if rl.1.limited then
    (⟨429, none, none, some .rateLimited, false⟩, cache, rl.2, false)
  else
    match body with
    | .error _ => (⟨500, none, none, some .processFailed, false⟩, cache, rl.2, false)
    | .ok none => (⟨400, none, none, some .queryRequired, false⟩, cache, rl.2, false)
    | .ok (some q) =>
      if (trimStr q).isEmpty then
        (⟨400, none, none, some .queryRequired, false⟩, cache, rl.2, false)
      else
        let cacheKey := normalizeQuery2 q
        let swr := staleWhileRevalidate now (cacheGet cache cacheKey)
          (producerOutcome apiKey upstream)
        match swr.outcome with
        | .ok (v, fromCache) =>
          (⟨200, some fromCache, some v, none, false⟩,
            match swr.write with
            | some e => cacheSet cache cacheKey e
            | none => cache,
            rl.2, swr.bgScheduled)
        | .error _ =>
          (⟨500, none, none, some .searchFailed, false⟩, cache, rl.2, swr.bgScheduled)

/-! ## Claim theorems -/

instance (q1 q2 : List Char) : Decidable (queryEquiv q1 q2) :=
  match hf1 : findFilter q1, hf2 : findFilter q2 with
  | none, none => by unfold queryEquiv; rw [hf1, hf2]; infer_instance
  | some (b1, c1), some (b2, c2) => by unfold queryEquiv; rw [hf1, hf2]; infer_instance
  | none, some p => by
    unfold queryEquiv; rw [hf1, hf2]; exact inferInstanceAs (Decidable False)
  | some p, none => by
    unfold queryEquiv; rw [hf1, hf2]; exact inferInstanceAs (Decidable False)

/-- C1 counterexample: `"a  b"` and `"a b"` differ only in (internal)
whitespace, yet `normalizeQuery` of `src/app/api/search/route.ts` maps
them to different cache keys — the function trims and lower-cases but
does not collapse interior whitespace. -/
theorem spec_C1_counterexample :
    normalizeQuery1 (strL "a  b") ≠ normalizeQuery1 (strL "a b") := by decide

/-- C1 (amended): `normalizeQuery` identifies queries that differ in
casing, in leading whitespace, or in dietary-filter-term order (and
whitespace around the terms), but not in internal whitespace: (i) any
two key-equivalent queries (`queryEquiv`: equal trimmed lower-cased
main parts, permuted trimmed lower-cased filter terms) get the same
key; (ii) lower-casing a query never changes its key; (iii) prepending
whitespace never changes a key. -/
theorem spec_C1_amended :
    (∀ q1 q2 : List Char, queryEquiv q1 q2 →
      normalizeQuery1 q1 = normalizeQuery1 q2) ∧
    (∀ q : List Char, normalizeQuery1 (lowerStr q) = normalizeQuery1 q) ∧
    (∀ ws q : List Char, (∀ w ∈ ws, isWs w = true) →
      normalizeQuery1 (ws ++ q) = normalizeQuery1 q) :=
  ⟨normalizeQuery1_congr,
   fun q => normalizeQuery1_congr _ _ (queryEquiv_lowerStr q),
   fun ws q h => normalizeQuery1_congr _ _ (queryEquiv_ws_append ws q h)⟩

/-- Witness for `spec_C1_amended` at concrete inputs: a casing/outer
whitespace variant pair, and a filter-order variant pair. -/
theorem spec_C1_amended_witness :
    queryEquiv (strL "Vegan  Pasta ") (strL "vegan  pasta") ∧
    normalizeQuery1 (strL "Vegan  Pasta ") = normalizeQuery1 (strL "vegan  pasta") ∧
    queryEquiv (strL "x with dietary preferences: b, a")
      (strL "x with dietary preferences: a, b") ∧
    normalizeQuery1 (strL "x with dietary preferences: b, a") =
      normalizeQuery1 (strL "x with dietary preferences: a, b") ∧
    (∀ w ∈ strL "  ", isWs w = true) ∧
    normalizeQuery1 (strL "  " ++ strL "tacos") = normalizeQuery1 (strL "tacos") := by
  have hperm : (termKeys (strL "b, a")).Perm (termKeys (strL "a, b")) := by
    show (strL "b" :: strL "a" :: []).Perm (strL "a" :: strL "b" :: [])
    exact List.Perm.swap _ _ _
  have hq : queryEquiv (strL "x with dietary preferences: b, a")
      (strL "x with dietary preferences: a, b") := ⟨rfl, hperm⟩
  exact ⟨by decide, spec_C1_amended.1 _ _ (by decide),
    hq, spec_C1_amended.1 _ _ hq,
    by decide, spec_C1_amended.2.2 (strL "  ") (strL "tacos") (by decide)⟩

/-- C3: for a STALE entry (expired but within one further TTL window),
`staleWhileRevalidate` returns the cached value with
`servedFromCache = true` for every producer (so the producer is not
consulted in the foreground and its failure can never surface to the
caller), writes nothing in the foreground, and schedules the background
revalidation; the background body overwrites the entry on success and
leaves it untouched on failure. -/
theorem spec_C3 (now : Int) (e : CacheEntry)
    (hstale1 : e.expiry ≤ now) (hstale2 : now - CACHE_TTL2 < e.expiry) :
    (∀ p : Except Unit (List Char),
      staleWhileRevalidate now (some e) p =
        ⟨.ok (e.result, true), none, true⟩) ∧
    (∀ (tBg : Int) (v : List Char),
      revalidate tBg (some e) (.ok v) = some ⟨v, tBg + CACHE_TTL2⟩) ∧
    (∀ tBg : Int, revalidate tBg (some e) (.error ()) = some e) := by
  refine ⟨fun p => ?_, fun tBg v => rfl, fun tBg => rfl⟩
  unfold staleWhileRevalidate
  dsimp only
  rw [if_neg (by omega), if_pos (by omega)]

/-- Witness for `spec_C3` at a concrete stale entry. -/
theorem spec_C3_witness :
    ((43199999 : Int) ≤ 43200000 ∧ (43200000 : Int) - CACHE_TTL2 < 43199999) ∧
    staleWhileRevalidate 43200000 (some ⟨strL "r", 43199999⟩) (.error ()) =
      ⟨.ok (strL "r", true), none, true⟩ ∧
    revalidate 50000000 (some ⟨strL "r", 43199999⟩) (.ok (strL "f")) =
      some ⟨strL "f", 50000000 + CACHE_TTL2⟩ ∧
    revalidate 50000000 (some ⟨strL "r", 43199999⟩) (.error ()) =
      some ⟨strL "r", 43199999⟩ :=
  ⟨⟨by decide, by decide⟩,
   (spec_C3 43200000 ⟨strL "r", 43199999⟩ (by decide) (by decide)).1 _,
   (spec_C3 43200000 ⟨strL "r", 43199999⟩ (by decide) (by decide)).2.1 _ _,
   (spec_C3 43200000 ⟨strL "r", 43199999⟩ (by decide) (by decide)).2.2 _⟩

/-- C4: a FRESH cache entry (`expiry > now`) is served as-is with
`servedFromCache = true` and the producer is never invoked: the
stale-while-revalidate outcome is the same for every producer, with no
write and no background schedule; likewise the search route's `POST`
answers a fresh hit with `200`/`X-Cache: HIT` and leaves the cache, and
its response is the same for every upstream behaviour, API key and
cleanup draw. -/
theorem spec_C4 (now : Int) (e : CacheEntry) (hfresh : e.expiry > now) :
    (∀ p : Except Unit (List Char),
      staleWhileRevalidate now (some e) p = ⟨.ok (e.result, true), none, false⟩) ∧
    (∀ (store : List Int) (q : List Char) (cache : CacheMap),
      (rateLimit now store).1.limited = false →
      (trimStr q).isEmpty = false →
      containsSub (strL "Failed to fetch search results") q = false →
      containsSub (strL "Error:") q = false →
      cacheGet cache (normalizeQuery1 q) = some e →
      ∀ (apiKey : Option (List Char)) (upstream : UpstreamOutcome) (rand10 : Bool),
        searchPOST1 now store (.ok (some q)) apiKey upstream rand10 cache =
          (⟨200, some true, some e.result, none, false⟩, cache,
            (rateLimit now store).2)) := by
  constructor
  · intro p
    unfold staleWhileRevalidate
    dsimp only
    rw [if_pos (by omega)]
  · intro store q cache hrl hq hc1 hc2 hget apiKey upstream rand10
    unfold searchPOST1
    simp only [hrl, hq, hc1, hc2, hget, Bool.false_eq_true, if_false,
      Bool.or_self, if_pos hfresh]

/-- Witness for `spec_C4` at a concrete fresh entry and request. -/
theorem spec_C4_witness :
    ((100 : Int) > 50) ∧
    staleWhileRevalidate 50 (some ⟨strL "r", 100⟩) (.error ()) =
      ⟨.ok (strL "r", true), none, false⟩ ∧
    searchPOST1 50 [] (.ok (some (strL "pasta"))) none .throw true
        [(strL "pasta", ⟨strL "r", 100⟩)] =
      (⟨200, some true, some (strL "r"), none, false⟩,
        [(strL "pasta", ⟨strL "r", 100⟩)], [50]) :=
  ⟨by decide,
   (spec_C4 50 ⟨strL "r", 100⟩ (by decide)).1 _,
   (spec_C4 50 ⟨strL "r", 100⟩ (by decide)).2 [] (strL "pasta") _
     (by decide) (by decide) (by decide) (by decide) (by decide) none .throw true⟩

/-- C5: for a MISSING or EXPIRED entry the producer runs in the
foreground: on success a new entry `{ value, now + TTL }` is written and
the fresh value is returned with `servedFromCache = false`; on failure
the failure propagates and nothing is written.  The same holds of the
search route's `POST` on a cache miss: an upstream rejection yields the
error response with the cache untouched, an upstream success whose
cleaned content parses to a non-empty array is returned as `X-Cache:
MISS` and cached with `expiry = now + TTL`. -/
theorem spec_C5 (now : Int) (store : List Int) (q : List Char) (cache : CacheMap)
    (hrl : (rateLimit now store).1.limited = false)
    (hq : (trimStr q).isEmpty = false)
    (hc1 : containsSub (strL "Failed to fetch search results") q = false)
    (hc2 : containsSub (strL "Error:") q = false)
    (hmiss : cacheGet cache (normalizeQuery1 q) = none) :
    (∀ entry : Option CacheEntry,
      (entry = none ∨ ∃ c, entry = some c ∧ c.expiry ≤ now - CACHE_TTL2) →
      (∀ v, staleWhileRevalidate now entry (.ok v) =
        ⟨.ok (v, false), some ⟨v, now + CACHE_TTL2⟩, false⟩) ∧
      staleWhileRevalidate now entry (.error ()) = ⟨.error (), none, false⟩) ∧
    (∀ apiKey : List Char,
      searchPOST1 now store (.ok (some q)) (some apiKey) .throw false cache =
        (⟨500, none, none, some .upstreamFailed, true⟩, cache,
          (rateLimit now store).2)) ∧
    (∀ (apiKey content : List Char) (elems : List Json),
      content.isEmpty = false →
      jsonParse (cleanJsonResponse content) = some (Json.JArr elems) →
      elems.isEmpty = false →
      searchPOST1 now store (.ok (some q)) (some apiKey) (.ok (some content))
          false cache =
        (⟨200, some false, some (cleanJsonResponse content), none, false⟩,
          cacheSet cache (normalizeQuery1 q)
            ⟨cleanJsonResponse content, now + CACHE_TTL1⟩,
          (rateLimit now store).2)) := by
  refine ⟨?_, ?_, ?_⟩
  · rintro entry (rfl | ⟨c, rfl, hexp⟩)
    · exact ⟨fun v => rfl, rfl⟩
    · have hT : CACHE_TTL2 = 43200000 := rfl
      constructor
      · intro v
        unfold staleWhileRevalidate
        dsimp only
        rw [if_neg (by omega), if_neg (by omega)]
        rfl
      · unfold staleWhileRevalidate
        dsimp only
        rw [if_neg (by omega), if_neg (by omega)]
        rfl
  · intro apiKey
    unfold searchPOST1 searchPOST1Up
    simp only [hrl, hq, hc1, hc2, hmiss, Bool.false_eq_true, if_false, Bool.or_self]
  · intro apiKey content elems hcontent hparse helems
    unfold searchPOST1 searchPOST1Up
    simp only [hrl, hq, hc1, hc2, hmiss, hcontent, hparse, helems,
      Bool.false_eq_true, if_false, Bool.or_self]

/-- Witness for `spec_C5`: a cold cache, a missing entry, one failing
and one succeeding upstream call. -/
theorem spec_C5_witness :
    ((rateLimit 0 []).1.limited = false ∧
      (trimStr (strL "pasta")).isEmpty = false ∧
      containsSub (strL "Failed to fetch search results") (strL "pasta") = false ∧
      containsSub (strL "Error:") (strL "pasta") = false ∧
      cacheGet [] (normalizeQuery1 (strL "pasta")) = none) ∧
    staleWhileRevalidate 0 none (.ok (strL "v")) =
      ⟨.ok (strL "v", false), some ⟨strL "v", 0 + CACHE_TTL2⟩, false⟩ ∧
    searchPOST1 0 [] (.ok (some (strL "pasta"))) (some (strL "k")) .throw false [] =
      (⟨500, none, none, some .upstreamFailed, true⟩, [], (rateLimit 0 []).2) ∧
    searchPOST1 0 [] (.ok (some (strL "pasta"))) (some (strL "k"))
        (.ok (some (strL "[1]"))) false [] =
      (⟨200, some false, some (cleanJsonResponse (strL "[1]")), none, false⟩,
        cacheSet [] (normalizeQuery1 (strL "pasta"))
          ⟨cleanJsonResponse (strL "[1]"), 0 + CACHE_TTL1⟩,
        (rateLimit 0 []).2) :=
  ⟨⟨by decide, by decide, by decide, by decide, by decide⟩,
   ((spec_C5 0 [] (strL "pasta") [] (by decide) (by decide) (by decide)
      (by decide) (by decide)).1 none (Or.inl rfl)).1 (strL "v"),
   (spec_C5 0 [] (strL "pasta") [] (by decide) (by decide) (by decide)
      (by decide) (by decide)).2.1 (strL "k"),
   (spec_C5 0 [] (strL "pasta") [] (by decide) (by decide) (by decide)
      (by decide) (by decide)).2.2 (strL "k") (strL "[1]") [Json.JNum ['1']]
      (by decide) rfl (by decide)⟩

/-- C6: `parseRecipeData` on the code-fenced input
`'\x60\x60\x60json\n[{"title":"A"}]\n\x60\x60\x60'` succeeds with
exactly one recipe whose title is `"A"`, whose ingredients are the empty
sequence, and whose id is the positional fallback `"recipe-1"`. -/
theorem spec_C6 :
    ∃ r : Recipe,
      parseRecipeData
          (strL "\x60\x60\x60json\n[\x7b\x22title\x22:\x22A\x22\x7d]\n\x60\x60\x60") =
        .ok [r] ∧
      r.title = Json.JStr (strL "A") ∧
      r.ingredients = [] ∧
      r.id = Json.JStr (strL "recipe-1") :=
  ⟨mapRecipe 0 (Json.JObj [(strL "title", Json.JStr (strL "A"))]),
    rfl, rfl, rfl, rfl⟩

/-- C7 counterexample: `parseRecipeData` on `"[]"` does NOT fail — the
fast path parses the empty array and maps it to an empty success. -/
theorem spec_C7_counterexample : parseRecipeData (strL "[]") = .ok [] := rfl

/-- C7 (amended): the client parser `parseRecipeData` fails whenever the
final parsed value is not an array (in particular on `"\x7b\x7d"`), but
returns an empty batch — an empty success — on `"[]"`; the zero-length
check lives only in the server route, which answers 500 for both `"[]"`
and `"\x7b\x7d"` upstream payloads. -/
theorem spec_C7_amended :
    (∀ s : List Char,
      (∀ v, jsonParse s = some v → isArr v = false) →
      (∀ v, jsonParse (cleanJsonResponse s) = some v → isArr v = false) →
      parseRecipeData s = .error ()) ∧
    parseRecipeData (strL "\x7b\x7d") = .error () ∧
    parseRecipeData (strL "[]") = .ok [] ∧
    searchPOST1 0 [] (.ok (some (strL "pasta"))) (some (strL "k"))
        (.ok (some (strL "[]"))) false [] =
      (⟨500, none, none, some .invalidRecipeData, false⟩, [], [0]) ∧
    searchPOST1 0 [] (.ok (some (strL "pasta"))) (some (strL "k"))
        (.ok (some (strL "\x7b\x7d"))) false [] =
      (⟨500, none, none, some .invalidRecipeData, false⟩, [], [0]) := by
  refine ⟨?_, rfl, rfl, rfl, rfl⟩
  intro s h1 h2
  unfold parseRecipeData parseRecipeCleanup
  cases hp : jsonParse s with
  | none =>
    cases hq : jsonParse (cleanJsonResponse s) with
    | none => rfl
    | some v =>
      have := h2 v hq
      cases v <;> simp_all [isArr]
  | some v =>
    have hv := h1 v hp
    cases hq : jsonParse (cleanJsonResponse s) with
    | none => cases v <;> simp_all [isArr]
    | some w =>
      have hw := h2 w hq
      cases v <;> cases w <;> simp_all [isArr]

/-- Witness for `spec_C7_amended`'s universally quantified part at a
concrete non-array input. -/
theorem spec_C7_amended_witness :
    (∀ v, jsonParse (strL "3") = some v → isArr v = false) ∧
    parseRecipeData (strL "3") = .error () := by
  have hv : ∀ v, jsonParse (strL "3") = some v → isArr v = false := by
    intro v hv
    have : v = Json.JNum ['3'] := by
      have h3 : jsonParse (strL "3") = some (Json.JNum ['3']) := rfl
      rw [h3] at hv
      exact (Option.some_inj.mp hv).symm
    rw [this]
    rfl
  have hc : ∀ v, jsonParse (cleanJsonResponse (strL "3")) = some v → isArr v = false := by
    intro v hv
    have : v = Json.JNum ['3'] := by
      have h3 : jsonParse (cleanJsonResponse (strL "3")) = some (Json.JNum ['3']) := rfl
      rw [h3] at hv
      exact (Option.some_inj.mp hv).symm
    rw [this]
    rfl
  exact ⟨hv, spec_C7_amended.1 (strL "3") hv hc⟩

/-- C10: when the rate limiter rejects, both search handlers answer 429
immediately: the response and every piece of state except the rate
store are identical for every request body, API key, upstream behaviour
and cleanup draw (the body is never read, the cache is never read or
written, the upstream is never contacted), and the response cache is
returned exactly as it was. -/
theorem spec_C10 (now : Int) (store : List Int) (cache : CacheMap)
    (hrl : (rateLimit now store).1.limited = true) :
    (∀ (body : Except Unit (Option (List Char))) (apiKey : Option (List Char))
        (upstream : UpstreamOutcome) (rand10 : Bool),
      searchPOST1 now store body apiKey upstream rand10 cache =
        (⟨429, none, none, some .rateLimited, false⟩, cache,
          (rateLimit now store).2)) ∧
    (∀ (body : Except Unit (Option (List Char))) (apiKey : Option (List Char))
        (upstream : UpstreamOutcome),
      searchPOST2 now store body apiKey upstream cache =
        (⟨429, none, none, some .rateLimited, false⟩, cache,
          (rateLimit now store).2, false)) := by
  constructor
  · intro body apiKey upstream rand10
    unfold searchPOST1
    simp only [hrl, if_true]
  · intro body apiKey upstream
    unfold searchPOST2
    simp only [hrl, if_true]

/-- Witness for `spec_C10`: a saturated store rejects, leaving a
non-empty cache untouched on both routes. -/
theorem spec_C10_witness :
    (rateLimit 5 [1, 2, 3, 4, 5]).1.limited = true ∧
    searchPOST1 5 [1, 2, 3, 4, 5] (.error ()) none .throw true
        [(strL "k", ⟨strL "v", 9⟩)] =
      (⟨429, none, none, some .rateLimited, false⟩,
        [(strL "k", ⟨strL "v", 9⟩)], [1, 2, 3, 4, 5]) ∧
    searchPOST2 5 [1, 2, 3, 4, 5] (.error ()) none .throw
        [(strL "k", ⟨strL "v", 9⟩)] =
      (⟨429, none, none, some .rateLimited, false⟩,
        [(strL "k", ⟨strL "v", 9⟩)], [1, 2, 3, 4, 5], false) :=
  ⟨by decide,
   (spec_C10 5 [1, 2, 3, 4, 5] [(strL "k", ⟨strL "v", 9⟩)] (by decide)).1
     (.error ()) none .throw true,
   (spec_C10 5 [1, 2, 3, 4, 5] [(strL "k", ⟨strL "v", 9⟩)] (by decide)).2
     (.error ()) none .throw⟩

/-- C8 counterexample: with a valid request and a cold cache, an
upstream non-success HTTP status (here 403) is forwarded by the search
route as its own response status — not mapped to 500 — and the response
body includes the upstream error payload (`details: errorData`). -/
theorem spec_C8_counterexample :
    (searchPOST1 0 [] (.ok (some (strL "pasta"))) (some (strL "k"))
        (.httpErr 403) false []).1.status = 403 ∧
    (searchPOST1 0 [] (.ok (some (strL "pasta"))) (some (strL "k"))
        (.httpErr 403) false []).1.status ≠ 500 ∧
    (searchPOST1 0 [] (.ok (some (strL "pasta"))) (some (strL "k"))
        (.httpErr 403) false []).1.detailsLeaked = true :=
  ⟨rfl, by decide, rfl⟩

/-- C8 (amended): upstream transport rejections and unparseable
responses do produce a 500 from the search route (the transport case
with the failure message included as `details`, the parse case with a
sanitized message), but a non-success upstream HTTP status is forwarded
as the response status together with upstream details; the
stale-while-revalidate route maps every producer failure — missing key,
rejection, non-success status, missing content — to a sanitized 500. -/
theorem spec_C8_amended (now : Int) (store : List Int) (q : List Char)
    (hrl : (rateLimit now store).1.limited = false)
    (hq : (trimStr q).isEmpty = false)
    (hc1 : containsSub (strL "Failed to fetch search results") q = false)
    (hc2 : containsSub (strL "Error:") q = false) :
    (∀ (cache : CacheMap) (apiKey : List Char),
      cacheGet cache (normalizeQuery1 q) = none →
      (∀ s : Nat,
        searchPOST1 now store (.ok (some q)) (some apiKey) (.httpErr s) false cache =
          (⟨s, none, none, some .upstreamFailed, true⟩, cache,
            (rateLimit now store).2)) ∧
      searchPOST1 now store (.ok (some q)) (some apiKey) .throw false cache =
        (⟨500, none, none, some .upstreamFailed, true⟩, cache,
          (rateLimit now store).2) ∧
      (∀ content : List Char, content.isEmpty = false →
        jsonParse (cleanJsonResponse content) = none →
        searchPOST1 now store (.ok (some q)) (some apiKey) (.ok (some content))
            false cache =
          (⟨500, none, none, some .parseFailed, false⟩, cache,
            (rateLimit now store).2))) ∧
    (∀ (cache : CacheMap) (apiKey : Option (List Char))
        (upstream : UpstreamOutcome),
      cacheGet cache (normalizeQuery2 q) = none →
      producerOutcome apiKey upstream = .error () →
      searchPOST2 now store (.ok (some q)) apiKey upstream cache =
        (⟨500, none, none, some .searchFailed, false⟩, cache,
          (rateLimit now store).2, false)) := by
  constructor
  · intro cache apiKey hget
    refine ⟨fun s => ?_, ?_, fun content hcont hparse => ?_⟩
    · unfold searchPOST1 searchPOST1Up
      simp only [hrl, hq, hc1, hc2, hget, Bool.false_eq_true, if_false, Bool.or_self]
    · unfold searchPOST1 searchPOST1Up
      simp only [hrl, hq, hc1, hc2, hget, Bool.false_eq_true, if_false, Bool.or_self]
    · unfold searchPOST1 searchPOST1Up
      simp only [hrl, hq, hc1, hc2, hget, hcont, hparse, Bool.false_eq_true,
        if_false, Bool.or_self]
  · intro cache apiKey upstream hget hprod
    unfold searchPOST2
    simp only [hrl, hq, hget, hprod, staleWhileRevalidate, swrMiss,
      Bool.false_eq_true, if_false]

/-- Witness for `spec_C8_amended` at a concrete request: upstream 502
is forwarded, a rejection and an unparseable body give 500, and the
stale-while-revalidate route answers a sanitized 500 for a missing API
key. -/
theorem spec_C8_amended_witness :
    ((rateLimit 0 []).1.limited = false ∧ cacheGet [] (normalizeQuery1 (strL "pasta")) = none) ∧
    searchPOST1 0 [] (.ok (some (strL "pasta"))) (some (strL "k")) (.httpErr 502) false [] =
      (⟨502, none, none, some .upstreamFailed, true⟩, [], (rateLimit 0 []).2) ∧
    searchPOST1 0 [] (.ok (some (strL "pasta"))) (some (strL "k")) .throw false [] =
      (⟨500, none, none, some .upstreamFailed, true⟩, [], (rateLimit 0 []).2) ∧
    searchPOST1 0 [] (.ok (some (strL "pasta"))) (some (strL "k"))
        (.ok (some (strL "not json"))) false [] =
      (⟨500, none, none, some .parseFailed, false⟩, [], (rateLimit 0 []).2) ∧
    searchPOST2 0 [] (.ok (some (strL "pasta"))) none .throw [] =
      (⟨500, none, none, some .searchFailed, false⟩, [], (rateLimit 0 []).2, false) := by
  have h := spec_C8_amended 0 [] (strL "pasta") (by decide) (by decide)
    (by decide) (by decide)
  exact ⟨⟨by decide, by decide⟩,
    (h.1 [] (strL "k") (by decide)).1 502,
    (h.1 [] (strL "k") (by decide)).2.1,
    (h.1 [] (strL "k") (by decide)).2.2 (strL "not json") (by decide) rfl,
    h.2 [] none .throw (by decide) rfl⟩

/-- C9: the stored timestamp list is an invariant of `rateLimit` —
assuming the clock never runs backwards (every stored timestamp is at
most `now`), after a call the stored list is ascending, contains only
timestamps newer than `now - 60000`, never exceeds 5 entries, and `now`
was appended exactly when the retained count was strictly below the
quota (a limited call stores only the filtered history). -/
theorem spec_C9 (now : Int) (s : List Int)
    (hsorted : List.Sorted (· ≤ ·) s)
    (hpast : ∀ t ∈ s, t ≤ now)
    (hlen : s.length ≤ 5) :
    List.Sorted (· ≤ ·) (rateLimit now s).2 ∧
    (∀ t ∈ (rateLimit now s).2, now - 60000 < t ∧ t ≤ now) ∧
    (rateLimit now s).2.length ≤ 5 ∧
    ((rateLimit now s).1.limited = false →
      (rateLimit now s).2 = (s.filter fun t => t > now - rlInterval) ++ [now]) ∧
    ((rateLimit now s).1.limited = true →
      (rateLimit now s).2 = s.filter fun t => t > now - rlInterval) := by
  have hT : rlInterval = 60000 := rfl
  have hmemf : ∀ t ∈ (s.filter fun t => t > now - rlInterval),
      now - 60000 < t ∧ t ≤ now := by
    intro t ht
    rw [List.mem_filter] at ht
    have h1 := hpast t ht.1
    have h2 := of_decide_eq_true ht.2
    omega
  unfold rateLimit
  dsimp only
  by_cases hc : (s.filter fun t => decide (t > now - rlInterval)).length ≥ 5
  · rw [if_pos hc]
    refine ⟨hsorted.filter _, hmemf, ?_, ?_, fun _ => rfl⟩
    · exact le_trans (s.length_filter_le _) hlen
    · intro h
      simp at h
  · rw [if_neg hc]
    refine ⟨?_, ?_, ?_, fun _ => rfl, ?_⟩
    · rw [List.Sorted, List.pairwise_append]
      refine ⟨hsorted.filter _, List.pairwise_singleton _ _, ?_⟩
      intro a ha b hb
      rw [List.mem_singleton] at hb
      subst hb
      exact (hmemf a ha).2
    · intro t ht
      rw [List.mem_append] at ht
      rcases ht with ht | ht
      · exact hmemf t ht
      · rw [List.mem_singleton] at ht
        subst ht
        omega
    · rw [List.length_append]
      simp only [List.length_singleton]
      omega
    · intro h
      simp at h

/-- Witness for `spec_C9` at a concrete sorted, in-window store. -/
theorem spec_C9_witness :
    (List.Sorted (· ≤ ·) [50000, 60000] ∧
      (∀ t ∈ ([50000, 60000] : List Int), t ≤ 100000) ∧
      ([50000, 60000] : List Int).length ≤ 5) ∧
    List.Sorted (· ≤ ·) (rateLimit 100000 [50000, 60000]).2 ∧
    (∀ t ∈ (rateLimit 100000 [50000, 60000]).2, (100000 : Int) - 60000 < t ∧ t ≤ 100000) ∧
    (rateLimit 100000 [50000, 60000]).2.length ≤ 5 :=
  ⟨⟨by decide, by decide, by decide⟩,
   (spec_C9 100000 [50000, 60000] (by decide) (by decide) (by decide)).1,
   (spec_C9 100000 [50000, 60000] (by decide) (by decide) (by decide)).2.1,
   (spec_C9 100000 [50000, 60000] (by decide) (by decide) (by decide)).2.2.1⟩

/-- C2: starting from no history, five admissions whose timestamps all
lie inside one 60-second window are admitted and the sixth call in that
window is rejected with `resetTime` equal to the oldest retained
admission (the first timestamp) plus the window; moreover a single
admitted call stores the filtered history plus `now` and reports
`remaining = 5 - (stored count)`, and a single rejected call reports
`resetTime = oldest retained timestamp + 60000`. -/
theorem spec_C2 :
    (∀ t0 t1 t2 t3 t4 t5 : Int,
      t0 ≤ t1 → t1 ≤ t2 → t2 ≤ t3 → t3 ≤ t4 → t4 ≤ t5 → t5 < t0 + 60000 →
      ((runCalls [t0, t1, t2, t3, t4, t5] []).1.map (·.limited) =
        [false, false, false, false, false, true]) ∧
      ((runCalls [t0, t1, t2, t3, t4, t5] []).1.getLast?.map (·.resetTime) =
        some (t0 + 60000))) ∧
    (∀ (now : Int) (s : List Int),
      (s.filter fun t => t > now - rlInterval).length < 5 →
      (rateLimit now s).1.limited = false ∧
      (rateLimit now s).2 = (s.filter fun t => t > now - rlInterval) ++ [now] ∧
      (rateLimit now s).1.remaining =
        some (5 - ((rateLimit now s).2.length : Int))) ∧
    (∀ (now : Int) (s : List Int),
      5 ≤ (s.filter fun t => t > now - rlInterval).length →
      (rateLimit now s).1.limited = true ∧
      (rateLimit now s).1.resetTime =
        (s.filter fun t => t > now - rlInterval).headD 0 + rlInterval ∧
      (rateLimit now s).2 = s.filter fun t => t > now - rlInterval) := by
  refine ⟨?_, ?_, ?_⟩
  · intro t0 t1 t2 t3 t4 t5 h01 h12 h23 h34 h45 hW
    have hT : rlInterval = 60000 := rfl
    have hstep : ∀ (tk : Int) (xs : List Int), tk ≤ t5 →
        (∀ x ∈ xs, t0 ≤ x ∧ x ≤ t5) →
        (xs.filter fun t => decide (t > tk - rlInterval)) = xs := by
      intro tk xs htk hxs
      rw [List.filter_eq_self]
      intro x hx
      rw [decide_eq_true_eq]
      have := hxs x hx
      omega
    have hf2 : ([t0].filter fun t => decide (t > t1 - rlInterval)) = [t0] :=
      hstep t1 [t0] (by omega) (by intro x hx; fin_cases hx <;> omega)
    have hf3 : ([t0, t1].filter fun t => decide (t > t2 - rlInterval)) = [t0, t1] :=
      hstep t2 [t0, t1] (by omega) (by intro x hx; fin_cases hx <;> omega)
    have hf4 : ([t0, t1, t2].filter fun t => decide (t > t3 - rlInterval)) =
        [t0, t1, t2] :=
      hstep t3 [t0, t1, t2] (by omega) (by intro x hx; fin_cases hx <;> omega)
    have hf5 : ([t0, t1, t2, t3].filter fun t => decide (t > t4 - rlInterval)) =
        [t0, t1, t2, t3] :=
      hstep t4 [t0, t1, t2, t3] (by omega) (by intro x hx; fin_cases hx <;> omega)
    have hf6 : ([t0, t1, t2, t3, t4].filter fun t => decide (t > t5 - rlInterval)) =
        [t0, t1, t2, t3, t4] :=
      hstep t5 [t0, t1, t2, t3, t4] le_rfl (by intro x hx; fin_cases hx <;> omega)
    have s1 : rateLimit t0 [] = (⟨false, some 4, t0 + rlInterval⟩, [t0]) := by
      unfold rateLimit
      norm_num
    have s2 : rateLimit t1 [t0] = (⟨false, some 3, t0 + rlInterval⟩, [t0, t1]) := by
      unfold rateLimit
      rw [hf2]
      norm_num
    have s3 : rateLimit t2 [t0, t1] =
        (⟨false, some 2, t0 + rlInterval⟩, [t0, t1, t2]) := by
      unfold rateLimit
      rw [hf3]
      norm_num
    have s4 : rateLimit t3 [t0, t1, t2] =
        (⟨false, some 1, t0 + rlInterval⟩, [t0, t1, t2, t3]) := by
      unfold rateLimit
      rw [hf4]
      norm_num
    have s5 : rateLimit t4 [t0, t1, t2, t3] =
        (⟨false, some 0, t0 + rlInterval⟩, [t0, t1, t2, t3, t4]) := by
      unfold rateLimit
      rw [hf5]
      norm_num
    have s6 : rateLimit t5 [t0, t1, t2, t3, t4] =
        (⟨true, none, t0 + rlInterval⟩, [t0, t1, t2, t3, t4]) := by
      unfold rateLimit
      rw [hf6]
      norm_num
    constructor
    · simp only [runCalls, s1, s2, s3, s4, s5, s6]
      rfl
    · simp only [runCalls, s1, s2, s3, s4, s5, s6]
      rfl
  · intro now s hlt
    unfold rateLimit
    dsimp only
    rw [if_neg (by omega)]
    exact ⟨rfl, rfl, rfl⟩
  · intro now s hge
    unfold rateLimit
    dsimp only
    rw [if_pos (by omega)]
    exact ⟨rfl, rfl, rfl⟩

/-- Witness for `spec_C2`: six calls at 0,10,…,50 ms, one admitted call
against one retained timestamp, one rejected call against a full
window. -/
theorem spec_C2_witness :
    ((runCalls [0, 10, 20, 30, 40, 50] []).1.map (·.limited) =
      [false, false, false, false, false, true]) ∧
    ((runCalls [0, 10, 20, 30, 40, 50] []).1.getLast?.map (·.resetTime) =
      some (0 + 60000)) ∧
    ((rateLimit 100 [90]).1.limited = false ∧
      (rateLimit 100 [90]).2 =
        (([90] : List Int).filter fun t => t > 100 - rlInterval) ++ [100] ∧
      (rateLimit 100 [90]).1.remaining =
        some (5 - (((rateLimit 100 [90]).2.length : Nat) : Int))) ∧
    ((rateLimit 100 [96, 97, 98, 99, 100]).1.limited = true ∧
      (rateLimit 100 [96, 97, 98, 99, 100]).1.resetTime =
        (([96, 97, 98, 99, 100] : List Int).filter
          fun t => t > 100 - rlInterval).headD 0 + rlInterval ∧
      (rateLimit 100 [96, 97, 98, 99, 100]).2 =
        ([96, 97, 98, 99, 100] : List Int).filter fun t => t > 100 - rlInterval) :=
  ⟨(spec_C2.1 0 10 20 30 40 50 (by decide) (by decide) (by decide) (by decide)
      (by decide) (by decide)).1,
   (spec_C2.1 0 10 20 30 40 50 (by decide) (by decide) (by decide) (by decide)
      (by decide) (by decide)).2,
   spec_C2.2.1 100 [90] (by decide),
   spec_C2.2.2 100 [96, 97, 98, 99, 100] (by decide)⟩
